import Mathlib

/-!
Verification of the extraction-and-normalization parser and the
set-comparison/metrics engine of the PlantUML / CSV model comparison
scripts (src/scripts/compare_plantuml_models.py and
src/scripts/compare_terms_csv.py).

The Python code is shallowly embedded over `List Char` / `String`:
Python sets become `Finset`, Python float arithmetic on the metric
formulas becomes exact rational arithmetic (the verified identities
are between syntactically identical division expressions, hence hold
for the floating point evaluation as well), Python regular expressions
are embedded through a small backtracking matcher with Python
leftmost/greedy semantics, restricted to the constructs the scripts
use.  Character classification models the ASCII fragment of the
Python `re` classes and `str` methods.
-/

/-- Python regex class `\s` (ASCII fragment): space, tab, newline,
carriage return, vertical tab, form feed. -/
def pyIsSpace (c : Char) : Bool :=
  c.toNat == 32 || c.toNat == 9 || c.toNat == 10 || c.toNat == 13 ||
  c.toNat == 11 || c.toNat == 12

/-- Decimal digit 0-9. -/
def pyIsDigitChar (c : Char) : Bool :=
  48 ≤ c.toNat && c.toNat ≤ 57

/-- Uppercase ASCII letter. -/
def pyIsUpperChar (c : Char) : Bool :=
  65 ≤ c.toNat && c.toNat ≤ 90

/-- Lowercase ASCII letter. -/
def pyIsLowerChar (c : Char) : Bool :=
  97 ≤ c.toNat && c.toNat ≤ 122

/-- Python regex class `\w` (ASCII fragment): letters, digits and the
underscore (codepoint 95). -/
def pyIsWordChar (c : Char) : Bool :=
  pyIsDigitChar c || pyIsUpperChar c || pyIsLowerChar c || c.toNat == 95

/-- Python `str.lower` on one character (ASCII fragment): uppercase
letters are shifted by 32, everything else is unchanged. -/
def pyToLower (c : Char) : Char :=
  if 65 ≤ c.toNat ∧ c.toNat ≤ 90 then Char.ofNat (c.toNat + 32) else c

/-- Python `str.strip()`: remove leading and trailing whitespace. -/
def pyStrip (l : List Char) : List Char :=
  ((l.dropWhile pyIsSpace).reverse.dropWhile pyIsSpace).reverse

/-- Python `str.lower()` over a character list. -/
def pyLower (l : List Char) : List Char :=
  l.map pyToLower

/-- Shared normalization pipeline of `normalize_identifier`
(compare_plantuml_models.py, lines 38-69) and `normalize_term`
(compare_terms_csv.py, lines 43-74): strip surrounding whitespace,
delete every character outside `[\w\s]`, lowercase, delete all
whitespace, delete all underscores.  The Python guard
`if not identifier: return ""` short-circuits the empty string, on
which the pipeline returns the empty string anyway. -/
def normalizeChars (cs : List Char) : List Char :=
  ((((pyStrip cs).filter (fun c => pyIsWordChar c || pyIsSpace c)).map
    pyToLower).filter (fun c => !pyIsSpace c)).filter (fun c => c.toNat ≠ 95)

/-- Source function `normalize_identifier` of compare_plantuml_models.py. -/
def normalize_identifier (s : String) : String :=
  String.mk (normalizeChars s.toList)

/-- Source function `normalize_term` of compare_terms_csv.py; its body is
character-for-character the same pipeline as `normalize_identifier`. -/
def normalize_term (s : String) : String :=
  String.mk (normalizeChars s.toList)

theorem toNat_charOfNat (n : Nat) (h : n.isValidChar) : (Char.ofNat n).toNat = n := by
  simp only [Char.ofNat, h, dite_true, Char.ofNatAux, Char.toNat]
  simp [UInt32.toNat, UInt32.ofNatCore]

theorem pyToLower_toNat (c : Char) :
    (pyToLower c).toNat = if 65 ≤ c.toNat ∧ c.toNat ≤ 90 then c.toNat + 32 else c.toNat := by
  unfold pyToLower
  split
  · next h => exact toNat_charOfNat _ (Or.inl (by omega))
  · rfl

theorem pyIsSpace_pyToLower (c : Char) : pyIsSpace (pyToLower c) = pyIsSpace c := by
  refine Bool.eq_iff_iff.mpr ?_
  simp only [pyIsSpace, pyToLower_toNat, Bool.or_eq_true, beq_iff_eq]
  split
  · next h => omega
  · next h => exact Iff.rfl

theorem pyIsWordChar_pyToLower (c : Char) : pyIsWordChar (pyToLower c) = pyIsWordChar c := by
  refine Bool.eq_iff_iff.mpr ?_
  simp only [pyIsWordChar, pyIsDigitChar, pyIsUpperChar, pyIsLowerChar, pyToLower_toNat,
    Bool.or_eq_true, Bool.and_eq_true, beq_iff_eq, decide_eq_true_eq]
  split
  · next h => omega
  · next h => exact Iff.rfl

theorem pyToLower_toNat_ne (c : Char) (h : c.toNat ≠ 95) : (pyToLower c).toNat ≠ 95 := by
  rw [pyToLower_toNat]
  split
  · omega
  · exact h

theorem pyToLower_pyToLower (c : Char) : pyToLower (pyToLower c) = pyToLower c := by
  have hcond : ¬ (65 ≤ (pyToLower c).toNat ∧ (pyToLower c).toNat ≤ 90) := by
    rw [pyToLower_toNat]
    split
    · omega
    · next h => exact h
  conv_lhs => rw [pyToLower]
  rw [if_neg hcond]

theorem dropWhile_eq_self_of_not {p : Char → Bool} {l : List Char}
    (h : ∀ c ∈ l, ¬ p c = true) : l.dropWhile p = l := by
  cases l with
  | nil => rfl
  | cons a l =>
    rw [List.dropWhile_cons_of_neg]
    simp only [Bool.not_eq_true]
    have := h a (by simp)
    simp_all

theorem pyStrip_eq_self_of_not {l : List Char}
    (h : ∀ c ∈ l, ¬ pyIsSpace c = true) : pyStrip l = l := by
  unfold pyStrip
  rw [dropWhile_eq_self_of_not h]
  rw [dropWhile_eq_self_of_not (fun c hc => h c (by simpa using hc))]
  simp

theorem mem_normalizeChars {d : Char} {cs : List Char} (h : d ∈ normalizeChars cs) :
    pyIsWordChar d = true ∧ pyIsSpace d = false ∧ d.toNat ≠ 95 ∧ pyToLower d = d := by
  unfold normalizeChars at h
  simp only [List.mem_filter, List.mem_map, decide_eq_true_eq, Bool.not_eq_true'] at h
  obtain ⟨⟨⟨c, hc, hcd⟩, hns⟩, hne⟩ := h
  obtain ⟨hcmem, hcw⟩ := hc
  subst hcd
  refine ⟨?_, hns, hne, pyToLower_pyToLower c⟩
  rw [pyIsWordChar_pyToLower]
  rcases Bool.or_eq_true _ _ |>.mp hcw with hw | hs
  · exact hw
  · exfalso
    rw [pyIsSpace_pyToLower, hs] at hns
    exact Bool.noConfusion hns

theorem normalizeChars_idem (cs : List Char) :
    normalizeChars (normalizeChars cs) = normalizeChars cs := by
  have hmem := fun d (hd : d ∈ normalizeChars cs) => mem_normalizeChars hd
  have h1 : pyStrip (normalizeChars cs) = normalizeChars cs :=
    pyStrip_eq_self_of_not (fun c hc => by simp [(hmem c hc).2.1])
  have h2 : (normalizeChars cs).filter (fun c => pyIsWordChar c || pyIsSpace c) =
      normalizeChars cs :=
    List.filter_eq_self.mpr (fun c hc => by simp [(hmem c hc).1])
  have h3 : (normalizeChars cs).map pyToLower = normalizeChars cs :=
    (List.map_congr_left (fun c hc => (hmem c hc).2.2.2)).trans (List.map_id _)
  have h4 : (normalizeChars cs).filter (fun c => !pyIsSpace c) = normalizeChars cs :=
    List.filter_eq_self.mpr (fun c hc => by simp [(hmem c hc).2.1])
  have h5 : (normalizeChars cs).filter (fun c => c.toNat ≠ 95) = normalizeChars cs :=
    List.filter_eq_self.mpr (fun c hc => by simp [(hmem c hc).2.2.1])
  conv_lhs => rw [normalizeChars, h1, h2, h3, h4, h5]

/-- Holder for the metric computation results, mirroring the
`MetricResult` dataclass (counts as naturals, ratios as exact
rationals). -/
structure MetricResult where
  precision : ℚ
  «recall» : ℚ
  f1_score : ℚ
  true_positives : ℕ
  false_positives : ℕ
  false_negatives : ℕ
deriving DecidableEq, Repr

/-- Source function `calculate_metrics` of compare_plantuml_models.py
(lines 241-267): set-based tp/fp/fn counts and the zero-division-safe
precision, recall and F1 ratios. -/
def calculate_metrics {α : Type} [DecidableEq α]
    (reference evaluated : Finset α) : MetricResult :=
  let tp : ℕ := (reference ∩ evaluated).card
  let fp : ℕ := (evaluated \ reference).card
  let fnn : ℕ := (reference \ evaluated).card
  let precision : ℚ := if tp + fp > 0 then (tp : ℚ) / ((tp : ℚ) + (fp : ℚ)) else 0
  let recallV : ℚ := if tp + fnn > 0 then (tp : ℚ) / ((tp : ℚ) + (fnn : ℚ)) else 0
  let f1 : ℚ :=
    if precision + recallV > 0 then 2 * precision * recallV / (precision + recallV) else 0
  ⟨precision, recallV, f1, tp, fp, fnn⟩

/-- Claim C6: the identifier normalizer is idempotent; for every input
string x, normalize(normalize(x)) equals normalize(x), for both
normalize_identifier and normalize_term. -/
theorem c6_normalize_idempotent (x : String) :
    normalize_identifier (normalize_identifier x) = normalize_identifier x ∧
    normalize_term (normalize_term x) = normalize_term x := by
  constructor
  · show String.mk (normalizeChars (normalizeChars x.toList)) = _
    rw [normalizeChars_idem]
    rfl
  · show String.mk (normalizeChars (normalizeChars x.toList)) = _
    rw [normalizeChars_idem]
    rfl

/-- Claim C4: calculate_metrics(S, S) for non-empty S yields
precision = recall = f1 = 1 and fp = fn = 0, and
calculate_metrics on two empty sets yields precision = recall = f1 = 0
and tp = fp = fn = 0. -/
theorem c4_metrics_identity_and_empty {α : Type} [DecidableEq α]
    (S : Finset α) (h : S.Nonempty) :
    (calculate_metrics S S).precision = 1 ∧
    (calculate_metrics S S).«recall» = 1 ∧
    (calculate_metrics S S).f1_score = 1 ∧
    (calculate_metrics S S).false_positives = 0 ∧
    (calculate_metrics S S).false_negatives = 0 ∧
    (calculate_metrics (∅ : Finset α) ∅).precision = 0 ∧
    (calculate_metrics (∅ : Finset α) ∅).«recall» = 0 ∧
    (calculate_metrics (∅ : Finset α) ∅).f1_score = 0 ∧
    (calculate_metrics (∅ : Finset α) ∅).true_positives = 0 ∧
    (calculate_metrics (∅ : Finset α) ∅).false_positives = 0 ∧
    (calculate_metrics (∅ : Finset α) ∅).false_negatives = 0 := by
  have hc : 0 < S.card := Finset.card_pos.mpr h
  have hq : (S.card : ℚ) ≠ 0 := Nat.cast_ne_zero.mpr (Nat.pos_iff_ne_zero.mp hc)
  simp only [calculate_metrics, Finset.inter_self, Finset.sdiff_self, Finset.card_empty]
  norm_num [hc, div_self hq]

/-- Claim C5: swapping the two arguments of calculate_metrics keeps tp,
swaps fp with fn, and swaps precision with recall. -/
theorem c5_metrics_swap {α : Type} [DecidableEq α] (R C : Finset α) :
    (calculate_metrics C R).true_positives = (calculate_metrics R C).true_positives ∧
    (calculate_metrics C R).false_positives = (calculate_metrics R C).false_negatives ∧
    (calculate_metrics C R).false_negatives = (calculate_metrics R C).false_positives ∧
    (calculate_metrics C R).precision = (calculate_metrics R C).«recall» ∧
    (calculate_metrics C R).«recall» = (calculate_metrics R C).precision := by
  refine ⟨?_, ?_, ?_, ?_, ?_⟩ <;> simp only [calculate_metrics] <;>
    first
    | rfl
    | rw [Finset.inter_comm C R]

/-- Elements extracted from one PlantUML model, mirroring the
`ModelElements` dataclass: a set of class keys, a set of
(source, kind, target) relationship triples, and a set of
(class, attribute) pairs. -/
structure ModelElements where
  classes : Finset String
  relationships : Finset (String × String × String)
  attributes : Finset (String × String)
deriving DecidableEq

/-- Python runtime values that can appear in the heterogeneous union
`classes | relationships | attributes` built by compare_models
(lines 304-305): a string, a 3-tuple or a 2-tuple.  Python equality
between values of different shapes is always False, which the
constructor tags model faithfully. -/
inductive PyVal where
  | str : String → PyVal
  | rel : String × String × String → PyVal
  | attr : String × String → PyVal
deriving DecidableEq

/-- The heterogeneous union of all elements of one model
(compare_models, lines 304-305). -/
def modelUnion (m : ModelElements) : Finset PyVal :=
  m.classes.image PyVal.str ∪ m.relationships.image PyVal.rel ∪
    m.attributes.image PyVal.attr

/-- Metrics computed by compare_models for one candidate (lines
299-306): per-kind metrics for classes, relationships and attributes,
and the overall metric on the unions. -/
def compare_models_metrics (reference model : ModelElements) :
    MetricResult × MetricResult × MetricResult × MetricResult :=
  (calculate_metrics reference.classes model.classes,
   calculate_metrics reference.relationships model.relationships,
   calculate_metrics reference.attributes model.attributes,
   calculate_metrics (modelUnion reference) (modelUnion model))

theorem pyValStr_injective : Function.Injective PyVal.str := by
  intro a b h
  injection h

theorem pyValRel_injective : Function.Injective PyVal.rel := by
  intro a b h
  injection h

theorem pyValAttr_injective : Function.Injective PyVal.attr := by
  intro a b h
  injection h

theorem modelUnion_inter (r m : ModelElements) :
    modelUnion r ∩ modelUnion m =
      (r.classes ∩ m.classes).image PyVal.str ∪
      (r.relationships ∩ m.relationships).image PyVal.rel ∪
      (r.attributes ∩ m.attributes).image PyVal.attr := by
  ext x
  cases x <;>
    simp [modelUnion, Finset.mem_inter, Finset.mem_union, Finset.mem_image]

theorem modelUnion_sdiff (r m : ModelElements) :
    modelUnion m \ modelUnion r =
      (m.classes \ r.classes).image PyVal.str ∪
      (m.relationships \ r.relationships).image PyVal.rel ∪
      (m.attributes \ r.attributes).image PyVal.attr := by
  ext x
  cases x <;>
    simp [modelUnion, Finset.mem_sdiff, Finset.mem_union, Finset.mem_image]

theorem taggedTriple_card (A : Finset String) (B : Finset (String × String × String))
    (C : Finset (String × String)) :
    (A.image PyVal.str ∪ B.image PyVal.rel ∪ C.image PyVal.attr).card =
      A.card + B.card + C.card := by
  have hAB : Disjoint (A.image PyVal.str) (B.image PyVal.rel) := by
    simp only [Finset.disjoint_left, Finset.mem_image]
    rintro x ⟨a, _, rfl⟩ ⟨b, _, h⟩
    exact PyVal.noConfusion h
  have hABC : Disjoint (A.image PyVal.str ∪ B.image PyVal.rel) (C.image PyVal.attr) := by
    simp only [Finset.disjoint_left, Finset.mem_union, Finset.mem_image]
    rintro x (⟨a, _, rfl⟩ | ⟨a, _, rfl⟩) ⟨b, _, h⟩ <;> exact PyVal.noConfusion h
  rw [Finset.card_union_of_disjoint hABC, Finset.card_union_of_disjoint hAB,
    Finset.card_image_of_injective _ pyValStr_injective,
    Finset.card_image_of_injective _ pyValRel_injective,
    Finset.card_image_of_injective _ pyValAttr_injective]

/-- Claim C3: in the overall (micro-average) metric the three element
kinds never collide inside the heterogeneous union, and consequently
the overall tp, fp and fn counts are the sums of the per-kind
counts. -/
theorem c3_overall_micro_average (reference model : ModelElements) :
    (∀ m : ModelElements,
      Disjoint (m.classes.image PyVal.str) (m.relationships.image PyVal.rel) ∧
      Disjoint (m.classes.image PyVal.str) (m.attributes.image PyVal.attr) ∧
      Disjoint (m.relationships.image PyVal.rel) (m.attributes.image PyVal.attr)) ∧
    (compare_models_metrics reference model).2.2.2.true_positives =
      (compare_models_metrics reference model).1.true_positives +
      (compare_models_metrics reference model).2.1.true_positives +
      (compare_models_metrics reference model).2.2.1.true_positives ∧
    (compare_models_metrics reference model).2.2.2.false_positives =
      (compare_models_metrics reference model).1.false_positives +
      (compare_models_metrics reference model).2.1.false_positives +
      (compare_models_metrics reference model).2.2.1.false_positives ∧
    (compare_models_metrics reference model).2.2.2.false_negatives =
      (compare_models_metrics reference model).1.false_negatives +
      (compare_models_metrics reference model).2.1.false_negatives +
      (compare_models_metrics reference model).2.2.1.false_negatives := by
  refine ⟨?_, ?_, ?_, ?_⟩
  · intro m
    refine ⟨?_, ?_, ?_⟩ <;>
      · simp only [Finset.disjoint_left, Finset.mem_image]
        rintro x ⟨a, _, rfl⟩ ⟨b, _, h⟩
        exact PyVal.noConfusion h
  · show (calculate_metrics (modelUnion reference) (modelUnion model)).true_positives = _
    simp only [calculate_metrics, compare_models_metrics]
    rw [modelUnion_inter, taggedTriple_card]
  · show (calculate_metrics (modelUnion reference) (modelUnion model)).false_positives = _
    simp only [calculate_metrics, compare_models_metrics]
    rw [modelUnion_sdiff, taggedTriple_card]
  · show (calculate_metrics (modelUnion reference) (modelUnion model)).false_negatives = _
    simp only [calculate_metrics, compare_models_metrics]
    rw [show modelUnion reference \ modelUnion model =
        (reference.classes \ model.classes).image PyVal.str ∪
        (reference.relationships \ model.relationships).image PyVal.rel ∪
        (reference.attributes \ model.attributes).image PyVal.attr from
      modelUnion_sdiff model reference, taggedTriple_card]

/-- Newline character. -/
def nlChar : Char := Char.ofNat 10

/-- Double-quote character. -/
def quoteChar : Char := Char.ofNat 34

/-- Apostrophe, the PlantUML line-comment marker. -/
def aposChar : Char := Char.ofNat 39

/-- Opening brace. -/
def lbrace : Char := Char.ofNat 123

/-- Closing brace. -/
def rbrace : Char := Char.ofNat 125

/-- Captured groups of one regex match: group index paired with the
matched span. -/
abbrev Caps := List (Nat × List Char)

/-- Abstract syntax of the regular-expression fragment used by the
scripts: literals (case sensitive and insensitive), character classes,
greedy star/plus over a character class, sequencing, prioritized
alternation, greedy option, capturing groups, single-character
negative lookbehind/lookahead, and the end-of-line anchor. -/
inductive RE where
  | eps : RE
  | lit : List Char → RE
  | litCI : List Char → RE
  | cls : (Char → Bool) → RE
  | starCls : (Char → Bool) → RE
  | plusCls : (Char → Bool) → RE
  | seq : RE → RE → RE
  | alt : RE → RE → RE
  | opt : RE → RE
  | grp : Nat → RE → RE
  | nlb : (Char → Bool) → RE
  | nla : (Char → Bool) → RE
  | eos : RE

/-- Sequence a list of regex fragments. -/
def reSeq (l : List RE) : RE :=
  l.foldr RE.seq RE.eps

/-- Length of the maximal run of characters satisfying p from
position i. -/
def countRun (p : Char → Bool) (input : List Char) (i : Nat) : Nat :=
  ((input.drop i).takeWhile p).length

/-- The span of the input from position i (inclusive) to j
(exclusive). -/
def sliceChars (input : List Char) (i j : Nat) : List Char :=
  (input.drop i).take (j - i)

/-- Backtracking matcher.  `reRun input r i` returns the list of
possible (end position, captures) outcomes of matching r at position
i, in Python priority order (greedy quantifiers longest first,
alternation left branch first); the head of the list is the match
Python would produce. -/
def reRun (input : List Char) : RE → Nat → List (Nat × Caps)
  | RE.eps, i => [(i, [])]
  | RE.lit s, i =>
    if ((input.drop i).take s.length) == s then [(i + s.length, [])] else []
  | RE.litCI s, i =>
    if ((input.drop i).take s.length).map pyToLower == s.map pyToLower then
      [(i + s.length, [])]
    else []
  | RE.cls p, i =>
    match input.get? i with
    | some c => if p c then [(i + 1, [])] else []
    | none => []
  | RE.starCls p, i =>
    (List.range (countRun p input i + 1)).map (fun j => (i + (countRun p input i - j), []))
  | RE.plusCls p, i =>
    (List.range (countRun p input i)).map (fun j => (i + (countRun p input i - j), []))
  | RE.seq a b, i =>
    (reRun input a i).flatMap (fun ja =>
      (reRun input b ja.1).map (fun jb => (jb.1, ja.2 ++ jb.2)))
  | RE.alt a b, i => reRun input a i ++ reRun input b i
  | RE.opt r, i => reRun input r i ++ [(i, [])]
  | RE.grp n r, i =>
    (reRun input r i).map (fun j => (j.1, j.2 ++ [(n, sliceChars input i j.1)]))
  | RE.nlb p, i =>
    match i with
    | 0 => [(0, [])]
    | Nat.succ i0 =>
      match input.get? i0 with
      | some c => if p c then [] else [(i0 + 1, [])]
      | none => [(i0 + 1, [])]
  | RE.nla p, i =>
    match input.get? i with
    | some c => if p c then [] else [(i, [])]
    | none => [(i, [])]
  | RE.eos, i =>
    if i == input.length || (i + 1 == input.length && input.get? i == some nlChar) then
      [(i, [])]
    else []

/-- Value of capture group n in a match. -/
def capStr (caps : Caps) (n : Nat) : Option (List Char) :=
  (caps.find? (fun p => p.1 == n)).map (fun p => p.2)

/-- Fuelled scanner behind reFindIter. -/
def reFindIterAux (r : RE) (input : List Char) : Nat → Nat → List (Nat × Nat × Caps)
  | 0, _ => []
  | fuel + 1, i =>
    if i ≤ input.length then
      match (reRun input r i).head? with
      | some jc =>
        if i < jc.1 then (i, jc.1, jc.2) :: reFindIterAux r input fuel jc.1
        else (i, jc.1, jc.2) :: reFindIterAux r input fuel (i + 1)
      | none => reFindIterAux r input fuel (i + 1)
    else []

/-- Python re.finditer: all non-overlapping matches, scanning left to
right, leftmost match at each position, resuming after each match. -/
def reFindIter (r : RE) (input : List Char) : List (Nat × Nat × Caps) :=
  reFindIterAux r input (input.length + 1) 0

/-- Python re.match: anchored match attempt at position 0. -/
def reMatchHead (r : RE) (input : List Char) : Option (Nat × Caps) :=
  (reRun input r 0).head?

/-- Python re.sub with empty replacement: delete every matched span. -/
def reSubDelete (r : RE) (input : List Char) : List Char :=
  let ms := reFindIter r input
  ((List.range input.length).filter
    (fun ix => !ms.any (fun m => m.1 ≤ ix && ix < m.2.1))).filterMap
    (fun ix => input.get? ix)

/-- Split on newline characters (Python str.split with separator
newline): always returns at least one, possibly empty, line. -/
def splitLines : List Char → List (List Char)
  | [] => [[]]
  | c :: rest =>
    let ls := splitLines rest
    if c.toNat = 10 then [] :: ls
    else (c :: ls.headI) :: ls.tail

/-- Join lines back with newline separators. -/
def joinLines (ls : List (List Char)) : List Char :=
  (ls.intersperse [nlChar]).flatten

/-- PlantUML line-comment stripping, the re.sub of pattern
apostrophe-dot-star-lazy-dollar with MULTILINE (line 88): on each
line, everything from the first apostrophe to the end of the line is
removed (the newline itself stays). -/
def removeLineComments (l : List Char) : List Char :=
  joinLines ((splitLines l).map (fun ln => ln.takeWhile (fun c => c.toNat ≠ 39)))

/-- Scan for the closest block-comment terminator; returns the suffix
after it. -/
def dropToBlockClose : List Char → Option (List Char)
  | [] => none
  | '*' :: '/' :: rest => some rest
  | _ :: rest => dropToBlockClose rest

/-- Fuelled worker for block-comment stripping. -/
def removeBlockCommentsAux : Nat → List Char → List Char
  | 0, l => l
  | fuel + 1, l =>
    match l with
    | [] => []
    | c :: rest =>
      if c.toNat = 47 ∧ rest.head?.map Char.toNat = some 42 then
        match dropToBlockClose (rest.drop 1) with
        | some rest2 => removeBlockCommentsAux fuel rest2
        | none => c :: removeBlockCommentsAux fuel rest
      else c :: removeBlockCommentsAux fuel rest

/-- Block-comment stripping, the re.sub of pattern
slash-star-dot-star-lazy-star-slash with DOTALL (line 89): each
slash-star opener up to the nearest star-slash closer is removed. -/
def removeBlockComments (l : List Char) : List Char :=
  removeBlockCommentsAux l.length l

/-- Python `raw_name.split('.')[-1] if '.' in raw_name else raw_name`:
the final dot-separated segment (possibly empty). -/
def lastDotSeg (s : List Char) : List Char :=
  if s.contains '.' then (s.reverse.takeWhile (fun c => c.toNat ≠ 46)).reverse else s

/-- Python truthiness of an optional string: None and the empty string
are falsy. -/
def pyTruthy (o : Option (List Char)) : Bool :=
  match o with
  | some l => !l.isEmpty
  | none => false

/-- Python `a if a else b` over optional strings, with None treated as
the empty string (matching `match.group` results). -/
def pyOrElse (a b : Option (List Char)) : List Char :=
  if pyTruthy a then a.getD [] else b.getD []

/-- Character class `[\w.]` used for bare, optionally dot-qualified
names. -/
def isWordDot (c : Char) : Bool :=
  pyIsWordChar c || c.toNat == 46

/-- Character class `[^"]`. -/
def isNotQuote (c : Char) : Bool :=
  c.toNat != 34

/-- Character class `[^}]`. -/
def isNotRBrace (c : Char) : Bool :=
  c.toNat != 125

/-- Character class `[^\n]`, also the behavior of the dot outside
DOTALL mode. -/
def isNotNL (c : Char) : Bool :=
  c.toNat != 10

/-- Visibility markers `[+\-#~]` of attribute lines. -/
def isVisibilityChar (c : Char) : Bool :=
  c.toNat == 43 || c.toNat == 45 || c.toNat == 35 || c.toNat == 126

/-- Characters of separator lines `[-=]`. -/
def isDashOrEq (c : Char) : Bool :=
  c.toNat == 45 || c.toNat == 61

/-- Characters excluded before an undirected association line
`(?<![<|*o])`. -/
def isArrowDecorLeft (c : Char) : Bool :=
  c.toNat == 60 || c.toNat == 124 || c.toNat == 42 || c.toNat == 111

/-- Characters excluded after an undirected association line
`(?![>|*o])`. -/
def isArrowDecorRight (c : Char) : Bool :=
  c.toNat == 62 || c.toNat == 124 || c.toNat == 42 || c.toNat == 111

/-- The CLASS sub-pattern of the relationship regexes,
`(?:"([^"]+)"|([\w.]+))`, with the two capture groups numbered g and
g+1. -/
def classRE (g : Nat) : RE :=
  RE.alt (reSeq [RE.lit [quoteChar], RE.grp g (RE.plusCls isNotQuote), RE.lit [quoteChar]])
    (RE.grp (g + 1) (RE.plusCls isWordDot))

/-- The CARD sub-pattern `(?:\s*"[^"]*")?` (optional quoted
cardinality). -/
def cardRE : RE :=
  RE.opt (reSeq [RE.starCls pyIsSpace, RE.lit [quoteChar], RE.starCls isNotQuote,
    RE.lit [quoteChar]])

/-- The LABEL sub-pattern `(?:\s*:\s*[^\n]+)?` (optional trailing
label). -/
def labelRE : RE :=
  RE.opt (reSeq [RE.starCls pyIsSpace, RE.lit [':'], RE.starCls pyIsSpace,
    RE.plusCls isNotNL])

/-- One relationship surface pattern
`CLASS CARD \s* (arrow) CARD \s* CLASS LABEL` with the given arrow
sub-pattern as group 3 (compare_plantuml_models.py, lines 128-140). -/
def relPatternRE (arrow : RE) : RE :=
  reSeq [classRE 1, cardRE, RE.starCls pyIsSpace, RE.grp 3 arrow, cardRE,
    RE.starCls pyIsSpace, classRE 4, labelRE]

/-- The undirected association arrow
`(?<![<|*o])--(?![>|*o])`. -/
def undirectedArrowRE : RE :=
  reSeq [RE.nlb isArrowDecorLeft, RE.lit ('-' :: '-' :: []), RE.nla isArrowDecorRight]

/-- The relationship pattern table (lines 127-141): pattern,
relationship type, and the reverse flag that requests an endpoint
swap. -/
def relationship_patterns : List (RE × String × Bool) :=
  [(relPatternRE (RE.lit "<|--".toList), "inheritance", true),
   (relPatternRE (RE.lit "--|>".toList), "inheritance", false),
   (relPatternRE (RE.lit "<|..".toList), "realization", true),
   (relPatternRE (RE.lit "..|>".toList), "realization", false),
   (relPatternRE (RE.lit "*--".toList), "composition", true),
   (relPatternRE (RE.lit "--*".toList), "composition", false),
   (relPatternRE (RE.lit "o--".toList), "aggregation", true),
   (relPatternRE (RE.lit "--o".toList), "aggregation", false),
   (relPatternRE (RE.lit "-->".toList), "association", false),
   (relPatternRE (RE.lit "<--".toList), "association", true),
   (relPatternRE undirectedArrowRE, "association", false),
   (relPatternRE (RE.lit "..>".toList), "dependency", false),
   (relPatternRE (RE.lit "<..".toList), "dependency", true)]

/-- The declaration keyword alternation of the class pattern
`(?:class|abstract\s+class|interface|enum)` (IGNORECASE). -/
def keywordAltRE : RE :=
  RE.alt (RE.litCI "class".toList)
    (RE.alt (reSeq [RE.litCI "abstract".toList, RE.plusCls pyIsSpace, RE.litCI "class".toList])
      (RE.alt (RE.litCI "interface".toList) (RE.litCI "enum".toList)))

/-- The optional alias suffix `(?:\s+as\s+(\w+))?` with the alias as
group 3. -/
def asAliasRE : RE :=
  RE.opt (reSeq [RE.plusCls pyIsSpace, RE.litCI "as".toList, RE.plusCls pyIsSpace,
    RE.grp 3 (RE.plusCls pyIsWordChar)])

/-- The class declaration pattern (line 97). -/
def classPatternRE : RE :=
  reSeq [keywordAltRE, RE.plusCls pyIsSpace, classRE 1, asAliasRE]

/-- The class-body pattern (line 172); note that enum is absent here
and the body capture is group 4. -/
def classDefPatternRE : RE :=
  reSeq [RE.alt (RE.litCI "class".toList)
      (RE.alt (reSeq [RE.litCI "abstract".toList, RE.plusCls pyIsSpace,
        RE.litCI "class".toList]) (RE.litCI "interface".toList)),
    RE.plusCls pyIsSpace, classRE 1, asAliasRE, RE.starCls pyIsSpace,
    RE.lit [lbrace], RE.grp 4 (RE.starCls isNotRBrace), RE.lit [rbrace]]

/-- Inline comment pattern of attribute lines, `'.*$` (line 198), on a
string without newlines. -/
def lineCommentRE : RE :=
  reSeq [RE.lit [aposChar], RE.starCls isNotNL, RE.eos]

/-- Full-line stereotype pattern `^\{.*\}$` (line 207). -/
def stereotypeLineRE : RE :=
  reSeq [RE.lit [lbrace], RE.starCls isNotNL, RE.lit [rbrace], RE.eos]

/-- Separator-line pattern `^[-=]+$` (line 215). -/
def sepLineRE : RE :=
  reSeq [RE.plusCls isDashOrEq, RE.eos]

/-- Leading stereotype/modifier pattern `\{[^}]+\}\s*` removed by
re.sub (line 219). -/
def modifierPrefixRE : RE :=
  reSeq [RE.lit [lbrace], RE.plusCls isNotRBrace, RE.lit [rbrace], RE.starCls pyIsSpace]

/-- Attribute-line pattern
`^[+\-#~]?\s*(\w+)\s*(?::\s*.+)?(?:\s*=\s*.+)?$` (line 226). -/
def attrRE : RE :=
  reSeq [RE.opt (RE.cls isVisibilityChar), RE.starCls pyIsSpace,
    RE.grp 1 (RE.plusCls pyIsWordChar), RE.starCls pyIsSpace,
    RE.opt (reSeq [RE.lit [':'], RE.starCls pyIsSpace, RE.plusCls isNotNL]),
    RE.opt (reSeq [RE.starCls pyIsSpace, RE.lit ['='], RE.starCls pyIsSpace,
      RE.plusCls isNotNL]),
    RE.eos]

/-- Class key computed from one class-pattern match (lines 100-113):
prefer the quoted name over the bare name (Python truthiness), keep
only the last dot-segment, and normalize. -/
def classKeyOfMatch (caps : Caps) : String :=
  let raw := pyOrElse (capStr caps 1) (capStr caps 2)
  normalize_identifier (String.mk (lastDotSeg raw))

/-- Guarded insertion of one class-pattern match (line 112): empty
canonical keys are discarded. -/
def classesStep (acc : Finset String) (m : Nat × Nat × Caps) : Finset String :=
  let n := classKeyOfMatch m.2.2
  if n ≠ "" then insert n acc else acc

/-- Class extraction stage of parse_plantuml_file (lines 97-113). -/
def classesOf (content : List Char) : Finset String :=
  (reFindIter classPatternRE content).foldl classesStep ∅

/-- Triple construction for one relationship match (lines 156-167):
normalize both simple endpoint names, discard the match when either is
empty, swap the endpoints when the pattern is a reverse arrow, and
normalize the relationship type through the same canonicalizer. -/
def relTriple (relType : String) (isRev : Bool) (leftName rightName : List Char) :
    Option (String × String × String) :=
  let left := normalize_identifier (String.mk (lastDotSeg leftName))
  let right := normalize_identifier (String.mk (lastDotSeg rightName))
  if left ≠ "" ∧ right ≠ "" then
    let source := if isRev then right else left
    let target := if isRev then left else right
    some (source, normalize_identifier relType, target)
  else none

/-- Guarded insertion of one relationship match (lines 147-167). -/
def relStep (relType : String) (isRev : Bool)
    (acc : Finset (String × String × String)) (m : Nat × Nat × Caps) :
    Finset (String × String × String) :=
  let leftName := pyOrElse (capStr m.2.2 1) (capStr m.2.2 2)
  let rightName := pyOrElse (capStr m.2.2 4) (capStr m.2.2 5)
  match relTriple relType isRev leftName rightName with
  | some t => insert t acc
  | none => acc

/-- Scan of one relationship pattern over the document: every match
folded into the accumulator through relStep. -/
def relPatStep (content : List Char) (acc : Finset (String × String × String))
    (pat : RE × String × Bool) : Finset (String × String × String) :=
  (reFindIter pat.1 content).foldl (relStep pat.2.1 pat.2.2) acc

/-- Relationship extraction stage of parse_plantuml_file (lines
115-167): all thirteen surface patterns scanned in source order into
one set. -/
def relationshipsOf (content : List Char) : Finset (String × String × String) :=
  relationship_patterns.foldl (relPatStep content) ∅

/-- Reserved modifier keywords excluded from attribute names (line
231). -/
def attrKeywords : List (List Char) :=
  ["static".toList, "abstract".toList, "final".toList, "const".toList,
   "readonly".toList, "virtual".toList, "override".toList]

/-- Per-line attribute filter of the class-body loop (lines 192-232):
strip, remove inline comment, skip blanks, skip method lines
(containing an opening parenthesis), skip full-line stereotypes, skip
annotation lines, skip separator lines, strip leading bracketed
modifiers, match the attribute pattern and reject reserved modifier
keywords.  Returns the raw attribute name when the line contributes
one. -/
def attrLineName (line : List Char) : Option (List Char) :=
  let l1 := pyStrip line
  if l1.isEmpty then none else
  let l2 := pyStrip (reSubDelete lineCommentRE l1)
  if l2.isEmpty then none else
  if l2.contains '(' then none else
  if (reMatchHead stereotypeLineRE l2).isSome then none else
  if l2.head? = some '@' then none else
  if (reMatchHead sepLineRE l2).isSome then none else
  let l3 := pyStrip (reSubDelete modifierPrefixRE l2)
  if l3.isEmpty then none else
  match reMatchHead attrRE l3 with
  | some mc =>
    match capStr mc.2 1 with
    | some nm =>
      let nm1 := pyStrip nm
      if attrKeywords.contains (pyLower nm1) then none else some nm1
    | none => none
  | none => none

/-- Owner key of a class body (lines 180-189): the alias when truthy,
else the quoted name when truthy, else the bare name; then last
dot-segment and normalization. -/
def classDefOwner (quoted simple aliasO : Option (List Char)) : String :=
  let raw :=
    if pyTruthy aliasO then aliasO.getD []
    else if pyTruthy quoted then quoted.getD []
    else simple.getD []
  normalize_identifier (String.mk (lastDotSeg raw))

/-- Guarded insertion of one class-body line (lines 226-236): the
line contributes the pair (owner, normalized name) only when the line
passes the attribute filter and both keys are non-empty. -/
def attrLineStep (className : String) (acc2 : Finset (String × String)) (ln : List Char) :
    Finset (String × String) :=
  match attrLineName ln with
  | some nm =>
    let normalizedAttr := normalize_identifier (String.mk nm)
    if normalizedAttr ≠ "" ∧ className ≠ "" then insert (className, normalizedAttr) acc2
    else acc2
  | none => acc2

/-- Guarded attribute insertion for one class-body match (lines
173-236): every body line is filtered by attrLineName, normalized, and
inserted only when both the owner key and the attribute key are
non-empty. -/
def classDefStep (acc : Finset (String × String)) (m : Nat × Nat × Caps) :
    Finset (String × String) :=
  let caps := m.2.2
  let className := classDefOwner (capStr caps 1) (capStr caps 2) (capStr caps 3)
  (splitLines ((capStr caps 4).getD [])).foldl (attrLineStep className) acc

/-- Attribute extraction stage of parse_plantuml_file (lines
169-236). -/
def attributesOf (content : List Char) : Finset (String × String) :=
  (reFindIter classDefPatternRE content).foldl classDefStep ∅

/-- Source function parse_plantuml_file (lines 72-238), embedded over
the file content (the file read itself is external I/O): strip line
comments, strip block comments, then run the three extraction
stages. -/
def parse_plantuml_file (content : String) : ModelElements :=
  let cs := removeBlockComments (removeLineComments content.toList)
  ⟨classesOf cs, relationshipsOf cs, attributesOf cs⟩

/-- Claim C2: relationship storage is always semantic source to
semantic target.  Processing a match of a reverse-spelled arrow
(arrowhead or diamond on the left endpoint) is identical to
processing the forward spelling with the endpoints exchanged, and the
two concrete documents with the two inheritance spellings extract to
the single identical stored triple. -/
theorem c2_reverse_arrow_normalization :
    (∀ relType : String, ∀ leftName rightName : List Char,
      relTriple relType true leftName rightName =
        relTriple relType false rightName leftName) ∧
    (parse_plantuml_file "A <|-- B").relationships = {("b", "inheritance", "a")} ∧
    (parse_plantuml_file "B --|> A").relationships = {("b", "inheritance", "a")} := by
  refine ⟨?_, by decide, by decide⟩
  intro t l r
  simp only [relTriple]
  exact if_congr and_comm rfl rfl

/-- Claim C7: attribute-line filtering inside a brace-delimited class
body.  A method line (containing a parameter-list opening) contributes
no attribute, a visibility-marked name-and-type line contributes
exactly the (owner, name) pair, and a line consisting solely of the
modifier keyword static contributes nothing; on the concrete document
with those three body lines, the attribute set is exactly
(c, name). -/
theorem c7_attribute_line_filtering :
    attrLineName ("+ getName(): string".toList) = none ∧
    attrLineName ("- name: string".toList) = some ("name".toList) ∧
    attrLineName ("static".toList) = none ∧
    (parse_plantuml_file
        "class C \x7b\n+ getName(): string\n- name: string\nstatic\n\x7d").attributes =
      {("c", "name")} := by
  refine ⟨by decide, by decide, by decide, by decide⟩

/-- Claim C10: the declaration `class X as Y` contributes the
normalized simple name of X (never Y) to the classes set, while every
attribute of its body is owned by the normalized alias Y; in the
concrete instance below the owner key bar is absent from the entity
set.  The general conjunct shows the owner computation always prefers
a truthy alias. -/
theorem c10_alias_asymmetry :
    (∀ quoted simple aliasO : Option (List Char), pyTruthy aliasO = true →
      classDefOwner quoted simple aliasO =
        normalize_identifier (String.mk (lastDotSeg (aliasO.getD [])))) ∧
    (parse_plantuml_file "class Foo as Bar \x7b\n- name: string\n\x7d").classes = {"foo"} ∧
    (parse_plantuml_file "class Foo as Bar \x7b\n- name: string\n\x7d").attributes =
      {("bar", "name")} ∧
    "bar" ∉ (parse_plantuml_file "class Foo as Bar \x7b\n- name: string\n\x7d").classes := by
  refine ⟨?_, by decide, by decide, by decide⟩
  intro q s a ha
  unfold classDefOwner
  rw [if_pos ha]

/-- Witness for the alias-preference hypothesis of c10, at the
concrete declaration class Foo as Bar. -/
theorem c10_alias_asymmetry_witness :
    classDefOwner none (some ("Foo".toList)) (some ("Bar".toList)) =
      normalize_identifier (String.mk (lastDotSeg ((some ("Bar".toList)).getD []))) :=
  c10_alias_asymmetry.1 none (some ("Foo".toList)) (some ("Bar".toList)) (by decide)

theorem mem_foldl_guard {α β : Type} [DecidableEq α] (P : α → Prop)
    (step : Finset α → β → Finset α) :
    ∀ (ms : List β),
      (∀ acc, ∀ m ∈ ms, ∀ x, x ∈ step acc m → x ∈ acc ∨ P x) →
      ∀ (init : Finset α) (x : α), x ∈ ms.foldl step init → x ∈ init ∨ P x := by
  intro ms
  induction ms with
  | nil => intro _ init x h; exact Or.inl h
  | cons m ms ih =>
    intro hstep init x h
    rw [List.foldl_cons] at h
    rcases ih (fun acc m' hm' => hstep acc m' (List.mem_cons_of_mem _ hm')) _ x h with h' | h'
    · exact hstep init m (List.mem_cons_self _ _) x h'
    · exact Or.inr h'

theorem classesStep_sound (acc : Finset String) (m : Nat × Nat × Caps) (x : String)
    (h : x ∈ classesStep acc m) : x ∈ acc ∨ x ≠ "" := by
  simp only [classesStep] at h
  split at h
  · next hn =>
    rcases Finset.mem_insert.mp h with rfl | hx
    · exact Or.inr hn
    · exact Or.inl hx
  · exact Or.inl h

theorem relTriple_sound {t : String} {rev : Bool} {l r : List Char}
    {x : String × String × String} (h : relTriple t rev l r = some x) :
    x.1 ≠ "" ∧ x.2.1 = normalize_identifier t ∧ x.2.2 ≠ "" := by
  simp only [relTriple] at h
  split_ifs at h with hc hrev
  · have hx := Option.some.inj h
    subst hx
    exact ⟨hc.2, rfl, hc.1⟩
  · have hx := Option.some.inj h
    subst hx
    exact ⟨hc.1, rfl, hc.2⟩

theorem relStep_sound (t : String) (rev : Bool) (acc : Finset (String × String × String))
    (m : Nat × Nat × Caps) (x : String × String × String) (h : x ∈ relStep t rev acc m) :
    x ∈ acc ∨ (x.1 ≠ "" ∧ x.2.1 = normalize_identifier t ∧ x.2.2 ≠ "") := by
  simp only [relStep] at h
  split at h
  · next t' ht' =>
    rcases Finset.mem_insert.mp h with rfl | hx
    · exact Or.inr (relTriple_sound ht')
    · exact Or.inl hx
  · exact Or.inl h

theorem attrLineStep_sound (className : String) (acc2 : Finset (String × String))
    (ln : List Char) (y : String × String) (hy : y ∈ attrLineStep className acc2 ln) :
    y ∈ acc2 ∨ (y.1 ≠ "" ∧ y.2 ≠ "") := by
  simp only [attrLineStep] at hy
  split at hy
  · next nm hnm =>
    split at hy
    · next hguard =>
      rcases Finset.mem_insert.mp hy with rfl | hx
      · exact Or.inr ⟨hguard.2, hguard.1⟩
      · exact Or.inl hx
    · exact Or.inl hy
  · exact Or.inl hy

theorem mem_foldl_attrLineStep (className : String) (lns : List (List Char))
    (acc : Finset (String × String)) (y : String × String)
    (hy : y ∈ lns.foldl (attrLineStep className) acc) :
    y ∈ acc ∨ (y.1 ≠ "" ∧ y.2 ≠ "") :=
  mem_foldl_guard (fun z => z.1 ≠ "" ∧ z.2 ≠ "") (attrLineStep className) lns
    (fun acc2 ln _ z hz => attrLineStep_sound className acc2 ln z hz) acc y hy

theorem classDefStep_sound (acc : Finset (String × String)) (m : Nat × Nat × Caps)
    (x : String × String) (h : x ∈ classDefStep acc m) :
    x ∈ acc ∨ (x.1 ≠ "" ∧ x.2 ≠ "") := by
  simp only [classDefStep] at h
  exact mem_foldl_attrLineStep _ _ acc x h

theorem relationship_patterns_types_nonempty :
    ∀ p ∈ relationship_patterns, normalize_identifier p.2.1 ≠ "" := by decide

theorem classesOf_sound (cs : List Char) (x : String) (hx : x ∈ classesOf cs) : x ≠ "" := by
  unfold classesOf at hx
  rcases mem_foldl_guard (fun y => y ≠ "") classesStep (reFindIter classPatternRE cs)
      (fun acc m _ y hy => classesStep_sound acc m y hy) ∅ x hx with h | h
  · exact absurd h (Finset.not_mem_empty x)
  · exact h

theorem relPatStep_sound (cs : List Char) (acc : Finset (String × String × String))
    (pat : RE × String × Bool) (hpat : normalize_identifier pat.2.1 ≠ "")
    (y : String × String × String) (hy : y ∈ relPatStep cs acc pat) :
    y ∈ acc ∨ (y.1 ≠ "" ∧ y.2.1 ≠ "" ∧ y.2.2 ≠ "") := by
  unfold relPatStep at hy
  rcases mem_foldl_guard
      (fun z : String × String × String =>
        z.1 ≠ "" ∧ z.2.1 = normalize_identifier pat.2.1 ∧ z.2.2 ≠ "")
      (relStep pat.2.1 pat.2.2) (reFindIter pat.1 cs)
      (fun acc2 m _ z hz => relStep_sound pat.2.1 pat.2.2 acc2 m z hz) acc y hy with
    h | h
  · exact Or.inl h
  · refine Or.inr ⟨h.1, ?_, h.2.2⟩
    rw [h.2.1]
    exact hpat

theorem relationshipsOf_sound (cs : List Char) (x : String × String × String)
    (hx : x ∈ relationshipsOf cs) : x.1 ≠ "" ∧ x.2.1 ≠ "" ∧ x.2.2 ≠ "" := by
  unfold relationshipsOf at hx
  rcases mem_foldl_guard
      (fun z : String × String × String => z.1 ≠ "" ∧ z.2.1 ≠ "" ∧ z.2.2 ≠ "")
      (relPatStep cs) relationship_patterns
      (fun acc pat hpat y hy =>
        relPatStep_sound cs acc pat (relationship_patterns_types_nonempty pat hpat) y hy)
      ∅ x hx with h | h
  · exact absurd h (Finset.not_mem_empty x)
  · exact h

theorem attributesOf_sound (cs : List Char) (x : String × String)
    (hx : x ∈ attributesOf cs) : x.1 ≠ "" ∧ x.2 ≠ "" := by
  unfold attributesOf at hx
  rcases mem_foldl_guard (fun y : String × String => y.1 ≠ "" ∧ y.2 ≠ "") classDefStep
      (reFindIter classDefPatternRE cs)
      (fun acc m _ y hy => classDefStep_sound acc m y hy) ∅ x hx with h | h
  · exact absurd h (Finset.not_mem_empty x)
  · exact h

/-- Claim C9: no empty canonical key ever enters a model.  For every
input document, every extracted class key is non-empty, every
component of every stored relationship triple is non-empty, and both
components of every stored attribute pair are non-empty. -/
theorem c9_no_empty_keys (content : String) :
    (∀ c ∈ (parse_plantuml_file content).classes, c ≠ "") ∧
    (∀ r ∈ (parse_plantuml_file content).relationships,
      r.1 ≠ "" ∧ r.2.1 ≠ "" ∧ r.2.2 ≠ "") ∧
    (∀ a ∈ (parse_plantuml_file content).attributes, a.1 ≠ "" ∧ a.2 ≠ "") := by
  simp only [parse_plantuml_file]
  exact ⟨fun c hc => classesOf_sound _ c hc,
    fun r hr => relationshipsOf_sound _ r hr,
    fun a ha => attributesOf_sound _ a ha⟩

/-- Witness for c9 at the document class A: the extracted key a is
non-empty. -/
theorem c9_no_empty_keys_witness : ("a" : String) ≠ "" :=
  (c9_no_empty_keys "class A").1 "a" (by decide)

/-- Python `str.lower()` on a String. -/
def pyLowerStr (s : String) : String :=
  String.mk (pyLower s.toList)

/-- Python `str.strip()` on a String. -/
def pyStripStr (s : String) : String :=
  String.mk (pyStrip s.toList)

/-- Outcome of the CSV extraction functions of compare_terms_csv.py: a
normal return, the ValueError raised when no term column is found
(carrying the available column names of the message; the file path in
the message is external I/O), or the AttributeError raised by looking
up the strip method on the None that csv.DictReader substitutes for a
missing cell (None has no strip attribute). -/
inductive PyResult (α : Type) where
  | ok : α → PyResult α
  | valueError : Option (List String) → PyResult α
  | attributeError : PyResult α
deriving DecidableEq

/-- Term-column discovery (lines 96-101 and 133-138): the first header
column whose lowered and stripped name equals term. -/
def findTermColumn (fieldnames : List String) : Option String :=
  fieldnames.find? (fun col => pyStripStr (pyLowerStr col) == "term")

/-- Value of column col in one data row under csv.DictReader
semantics: the row dict is dict(zip(fieldnames, cells)) and every
fieldname beyond the cell count is set to the restval None; for
duplicate fieldnames the last assignment wins; the Python None is
modelled as none.  The some-empty default mirrors row.get(col, ”)
for a column that is not a key at all. -/
def rowGet (fieldnames cells : List String) (col : String) : Option String :=
  let pairs := (fieldnames.zip cells).map (fun p => (p.1, some p.2)) ++
    (fieldnames.drop cells.length).map (fun k => (k, (none : Option String)))
  match (pairs.filter (fun p => p.1 == col)).getLast? with
  | some p => p.2
  | none => some ""

/-- Python dict assignment terms[k] = v preserving insertion order:
overwrite in place when the key exists, else append. -/
def dictInsert (d : List (String × String)) (k v : String) : List (String × String) :=
  if d.any (fun p => p.1 == k) then d.map (fun p => if p.1 == k then (k, v) else p)
  else d ++ [(k, v)]

/-- Python dict lookup: the value stored under k, scanning the
insertion-ordered entries (at most one entry per key exists). -/
def dictGet : List (String × String) → String → Option String
  | [], _ => none
  | p :: d, k => if p.1 == k then some p.2 else dictGet d k

/-- Row loop of extract_terms_with_original (lines 144-149):
csv.DictReader silently skips rows with no cells; a missing term cell
is None and stripping it raises AttributeError; blank terms and terms that
normalize to the empty string contribute nothing; otherwise the dict
entry for the canonical key is assigned the stripped original
spelling. -/
def withOriginalRows (fieldnames : List String) (tc : String) :
    List (List String) → List (String × String) → PyResult (List (String × String))
  | [], d => .ok d
  | cells :: rest, d =>
    if cells.isEmpty then withOriginalRows fieldnames tc rest d
    else
      match rowGet fieldnames cells tc with
      | none => .attributeError
      | some raw =>
        let term := pyStripStr raw
        if term ≠ "" then
          let n := normalize_term term
          if n ≠ "" then withOriginalRows fieldnames tc rest (dictInsert d n term)
          else withOriginalRows fieldnames tc rest d
        else withOriginalRows fieldnames tc rest d

/-- Row loop of extract_terms_from_csv (lines 107-112): identical
filtering, but only the canonical keys are collected into a set. -/
def fromCsvRows (fieldnames : List String) (tc : String) :
    List (List String) → Finset String → PyResult (Finset String)
  | [], s => .ok s
  | cells :: rest, s =>
    if cells.isEmpty then fromCsvRows fieldnames tc rest s
    else
      match rowGet fieldnames cells tc with
      | none => .attributeError
      | some raw =>
        let term := pyStripStr raw
        if term ≠ "" then
          let n := normalize_term term
          if n ≠ "" then fromCsvRows fieldnames tc rest (insert n s)
          else fromCsvRows fieldnames tc rest s
        else fromCsvRows fieldnames tc rest s

/-- Source function extract_terms_with_original (lines 117-151),
embedded over the already-parsed CSV shape: the header row (none for
an empty file, mirroring reader.fieldnames) and the data rows as cell
lists.  An absent term column raises ValueError carrying the available
column names. -/
def extract_terms_with_original (fieldnames : Option (List String))
    (rows : List (List String)) : PyResult (List (String × String)) :=
  let term_column : Option String :=
    match fieldnames with
    | some fns => findTermColumn fns
    | none => none
  match term_column with
  | none => .valueError fieldnames
  | some tc => withOriginalRows (fieldnames.getD []) tc rows []

/-- Source function extract_terms_from_csv (lines 77-114), embedded
over the same CSV shape. -/
def extract_terms_from_csv (fieldnames : Option (List String))
    (rows : List (List String)) : PyResult (Finset String) :=
  let term_column : Option String :=
    match fieldnames with
    | some fns => findTermColumn fns
    | none => none
  match term_column with
  | none => .valueError fieldnames
  | some tc => fromCsvRows (fieldnames.getD []) tc rows ∅

/-- Contribution of one data row to the original-spelling mapping: the
(canonical key, stripped original) pair the row loop stores, when the
row yields one. -/
def rowContrib (fieldnames : List String) (tc : String) (cells : List String) :
    Option (String × String) :=
  if cells.isEmpty then none
  else
    match rowGet fieldnames cells tc with
    | none => none
    | some raw =>
      let term := pyStripStr raw
      if term ≠ "" then
        let n := normalize_term term
        if n ≠ "" then some (n, term) else none
      else none

/-- Last-seen-wins reading of the original-spelling mapping: for key
k, the stripped original spelling of the last contributing row whose
canonical key is k. -/
def lastSeenOriginal (fieldnames : List String) (tc : String)
    (rows : List (List String)) (k : String) : Option String :=
  ((((rows.filterMap (rowContrib fieldnames tc)).filter
    (fun p => p.1 == k)).getLast?).map (fun p => p.2))

theorem optMap_or {α β : Type} (f : α → β) (x y : Option α) :
    (x.or y).map f = (x.map f).or (y.map f) := by
  cases x <;> rfl

theorem getLast?_cons_or {α : Type} (a : α) (l : List α) :
    (a :: l).getLast? = l.getLast?.or (some a) := by
  induction l generalizing a with
  | nil => rfl
  | cons b l ih =>
    rw [List.getLast?_cons_cons, ih b]
    cases l.getLast? <;> rfl

theorem dictGet_not_found (d : List (String × String)) (k : String)
    (h : d.any (fun p => p.1 == k) = false) : dictGet d k = none := by
  induction d with
  | nil => rfl
  | cons p d ih =>
    simp only [List.any_cons, Bool.or_eq_false_iff] at h
    simp only [dictGet, h.1, Bool.false_eq_true, if_false]
    exact ih h.2

theorem dictGet_append_single (d : List (String × String)) (n v k : String) :
    dictGet (d ++ [(n, v)]) k = (dictGet d k).or (if k = n then some v else none) := by
  induction d with
  | nil =>
    by_cases hk : k = n
    · subst hk
      simp [dictGet]
    · have hnk : (n == k) = false := by
        simp only [beq_eq_false_iff_ne, ne_eq]
        exact fun h => hk h.symm
      simp [dictGet, hnk, hk]
  | cons p d ih =>
    by_cases hp : (p.1 == k) = true
    · simp [dictGet, hp]
    · simp only [Bool.not_eq_true] at hp
      simp [dictGet, hp, ih]

theorem dictGet_map_overwrite (d : List (String × String)) (n v k : String) :
    dictGet (d.map (fun p => if p.1 == n then (n, v) else p)) k =
      if k = n then (if d.any (fun p => p.1 == n) then some v else none)
      else dictGet d k := by
  induction d with
  | nil => by_cases hk : k = n <;> simp [dictGet, hk]
  | cons p d ih =>
    by_cases hp : (p.1 == n) = true
    · have hpn : p.1 = n := by simpa using hp
      by_cases hk : k = n
      · subst hk
        simp [dictGet, hp, hpn, List.any_cons]
      · have h1 : (n == k) = false := by
          simp only [beq_eq_false_iff_ne, ne_eq]
          exact fun h => hk h.symm
        have h2 : (p.1 == k) = false := by rw [hpn]; exact h1
        simp only [List.map_cons, hp, if_true, dictGet, h1, h2, Bool.false_eq_true, if_false]
        simpa [hk] using ih
    · have hp' : (p.1 == n) = false := by simpa using hp
      by_cases hk : k = n
      · subst hk
        simp only [List.map_cons, hp', Bool.false_eq_true, if_false, dictGet,
          List.any_cons, Bool.false_or]
        simpa using ih
      · by_cases hpk : (p.1 == k) = true
        · simp [dictGet, hp', hpk, hk]
        · have hpk' : (p.1 == k) = false := by simpa using hpk
          simp only [List.map_cons, hp', Bool.false_eq_true, if_false, dictGet, hpk']
          simpa [hk] using ih

theorem dictGet_dictInsert (d : List (String × String)) (n v k : String) :
    dictGet (dictInsert d n v) k = if k = n then some v else dictGet d k := by
  unfold dictInsert
  by_cases hany : d.any (fun p => p.1 == n) = true
  · rw [if_pos hany, dictGet_map_overwrite, hany]
    by_cases hk : k = n <;> simp [hk]
  · simp only [Bool.not_eq_true] at hany
    rw [if_neg (by simp [hany]), dictGet_append_single]
    by_cases hk : k = n
    · subst hk
      rw [dictGet_not_found d k hany]
      simp
    · simp [hk]

theorem withOriginalRows_lastSeen (fieldnames : List String) (tc : String) :
    ∀ (rows : List (List String)) (d0 d : List (String × String)),
      withOriginalRows fieldnames tc rows d0 = .ok d →
      ∀ k, dictGet d k = (lastSeenOriginal fieldnames tc rows k).or (dictGet d0 k) := by
  intro rows
  induction rows with
  | nil =>
    intro d0 d h k
    cases h
    simp [lastSeenOriginal]
  | cons cells rest ih =>
    intro d0 d h k
    simp only [withOriginalRows] at h
    by_cases hemp : cells.isEmpty = true
    · rw [if_pos hemp] at h
      have hc : rowContrib fieldnames tc cells = none := by simp [rowContrib, hemp]
      rw [ih d0 d h k]
      simp [lastSeenOriginal, List.filterMap_cons, hc]
    · rw [if_neg hemp] at h
      cases hr : rowGet fieldnames cells tc with
      | none =>
        simp only [hr] at h
        cases h
      | some raw =>
        simp only [hr] at h
        by_cases ht : pyStripStr raw ≠ ""
        · rw [if_pos ht] at h
          by_cases hn : normalize_term (pyStripStr raw) ≠ ""
          · rw [if_pos hn] at h
            have hc : rowContrib fieldnames tc cells =
                some (normalize_term (pyStripStr raw), pyStripStr raw) := by
              simp only [rowContrib, hemp, Bool.false_eq_true, if_false, hr]
              rw [if_pos ht, if_pos hn]
            rw [ih _ d h k, dictGet_dictInsert]
            simp only [lastSeenOriginal, List.filterMap_cons, hc]
            by_cases hkn : k = normalize_term (pyStripStr raw)
            · have hbeq : ((normalize_term (pyStripStr raw), pyStripStr raw).1 == k) = true := by
                simp [hkn]
              simp only [List.filter_cons, hbeq, if_true]
              rw [getLast?_cons_or, optMap_or, if_pos hkn]
              cases (((rest.filterMap (rowContrib fieldnames tc)).filter
                  (fun p => p.1 == k)).getLast?).map (fun p => p.2) <;> rfl
            · have hbeq : ((normalize_term (pyStripStr raw), pyStripStr raw).1 == k) = false := by
                simp only [beq_eq_false_iff_ne, ne_eq]
                exact fun hh => hkn hh.symm
              simp only [List.filter_cons, hbeq, Bool.false_eq_true, if_false]
              rw [if_neg hkn]
          · rw [if_neg hn] at h
            have hc : rowContrib fieldnames tc cells = none := by
              simp only [rowContrib, hemp, Bool.false_eq_true, if_false, hr]
              rw [if_pos ht, if_neg hn]
            rw [ih d0 d h k]
            simp [lastSeenOriginal, List.filterMap_cons, hc]
        · rw [if_neg ht] at h
          have hc : rowContrib fieldnames tc cells = none := by
            simp only [rowContrib, hemp, Bool.false_eq_true, if_false, hr]
            rw [if_neg ht]
          rw [ih d0 d h k]
          simp [lastSeenOriginal, List.filterMap_cons, hc]

/-- Claim C1 counterexample: on two rows whose terms both canonicalize
to the key ab, the returned mapping holds the original spelling of the
second (last) row, not the first-seen spelling A_B; the claimed
first-seen-wins association is therefore false at this input. -/
theorem c1_counterexample :
    extract_terms_with_original (some ["term"]) [["A_B"], ["a b"]] =
      .ok [("ab", "a b")] ∧
    dictGet [("ab", "a b")] "ab" = some "a b" ∧
    normalize_term "A_B" = "ab" ∧ normalize_term "a b" = "ab" ∧
    ("a b" : String) ≠ "A_B" := by
  refine ⟨by decide, by decide, by decide, by decide, by decide⟩

/-- Claim C1 as amended: the mapping keeps the LAST-seen original
spelling.  Whenever extraction succeeds, the value stored under every
canonical key is the stripped original term of the last contributing
row whose term normalizes to that key; earlier associations are
overwritten by later rows. -/
theorem c1_last_seen_wins (fns : List String) (tc : String) (rows : List (List String))
    (d : List (String × String)) (htc : findTermColumn fns = some tc)
    (hok : extract_terms_with_original (some fns) rows = .ok d) (k : String) :
    dictGet d k = lastSeenOriginal fns tc rows k := by
  simp only [extract_terms_with_original, htc, Option.getD] at hok
  have := withOriginalRows_lastSeen fns tc rows [] d hok k
  simpa [dictGet] using this

/-- Witness for c1_last_seen_wins at the counterexample input. -/
theorem c1_last_seen_wins_witness :
    dictGet [("ab", "a b")] "ab" =
      lastSeenOriginal ["term"] "term" [["A_B"], ["a b"]] "ab" :=
  c1_last_seen_wins ["term"] "term" [["A_B"], ["a b"]] [("ab", "a b")]
    (by decide) (by decide) "ab"

/-- The header has no usable term column: no column name equals term
after lowering and trimming (vacuously true for a missing header). -/
def noTermColumn (fieldnames : Option (List String)) : Prop :=
  ∀ fns, fieldnames = some fns → ∀ col ∈ fns, pyStripStr (pyLowerStr col) ≠ "term"

theorem findTermColumn_eq_none_iff (fns : List String) :
    findTermColumn fns = none ↔ ∀ col ∈ fns, pyStripStr (pyLowerStr col) ≠ "term" := by
  simp [findTermColumn, List.find?_eq_none]

theorem withOriginalRows_ne_valueError (fns : List String) (tc : String) :
    ∀ (rows : List (List String)) (d0 : List (String × String))
      (cols : Option (List String)),
      withOriginalRows fns tc rows d0 ≠ .valueError cols := by
  intro rows
  induction rows with
  | nil =>
    intro d0 cols h
    cases h
  | cons cells rest ih =>
    intro d0 cols h
    simp only [withOriginalRows] at h
    by_cases hemp : cells.isEmpty = true
    · rw [if_pos hemp] at h
      exact ih d0 cols h
    · rw [if_neg hemp] at h
      cases hr : rowGet fns cells tc with
      | none =>
        simp only [hr] at h
        cases h
      | some raw =>
        simp only [hr] at h
        by_cases ht : pyStripStr raw ≠ ""
        · rw [if_pos ht] at h
          by_cases hn : normalize_term (pyStripStr raw) ≠ ""
          · rw [if_pos hn] at h
            exact ih _ cols h
          · rw [if_neg hn] at h
            exact ih _ cols h
        · rw [if_neg ht] at h
          exact ih _ cols h

theorem fromCsvRows_ne_valueError (fns : List String) (tc : String) :
    ∀ (rows : List (List String)) (s0 : Finset String) (cols : Option (List String)),
      fromCsvRows fns tc rows s0 ≠ .valueError cols := by
  intro rows
  induction rows with
  | nil =>
    intro s0 cols h
    cases h
  | cons cells rest ih =>
    intro s0 cols h
    simp only [fromCsvRows] at h
    by_cases hemp : cells.isEmpty = true
    · rw [if_pos hemp] at h
      exact ih s0 cols h
    · rw [if_neg hemp] at h
      cases hr : rowGet fns cells tc with
      | none =>
        simp only [hr] at h
        cases h
      | some raw =>
        simp only [hr] at h
        by_cases ht : pyStripStr raw ≠ ""
        · rw [if_pos ht] at h
          by_cases hn : normalize_term (pyStripStr raw) ≠ ""
          · rw [if_pos hn] at h
            exact ih _ cols h
          · rw [if_neg hn] at h
            exact ih _ cols h
        · rw [if_neg ht] at h
          exact ih _ cols h

theorem withOriginalRows_ok_iff (fns : List String) (tc : String) :
    ∀ (rows : List (List String)) (d0 : List (String × String)),
      (∃ d, withOriginalRows fns tc rows d0 = .ok d) ↔
        (∀ c ∈ rows, c ≠ [] → (rowGet fns c tc).isSome = true) := by
  intro rows
  induction rows with
  | nil =>
    intro d0
    constructor
    · intro _ c hc
      exact absurd hc (List.not_mem_nil c)
    · intro _
      exact ⟨d0, rfl⟩
  | cons cells rest ih =>
    intro d0
    by_cases hemp : cells.isEmpty = true
    · have hcells : cells = [] := by simpa using hemp
      have hbody : withOriginalRows fns tc (cells :: rest) d0 =
          withOriginalRows fns tc rest d0 := by
        simp only [withOriginalRows]
        rw [if_pos hemp]
      rw [hbody, ih d0]
      constructor
      · intro hall c hcmem hcne
        rcases List.mem_cons.mp hcmem with rfl | hmem
        · exact absurd hcells hcne
        · exact hall c hmem hcne
      · intro hall c hc hcne
        exact hall c (List.mem_cons_of_mem _ hc) hcne
    · have hcne : cells ≠ [] := by
        intro hh
        rw [hh] at hemp
        exact hemp rfl
      cases hr : rowGet fns cells tc with
      | none =>
        have hbody : withOriginalRows fns tc (cells :: rest) d0 = .attributeError := by
          simp only [withOriginalRows]
          rw [if_neg hemp]
          simp only [hr]
        rw [hbody]
        constructor
        · rintro ⟨d, hd⟩
          cases hd
        · intro hall
          have hx := hall cells (List.mem_cons_self _ _) hcne
          rw [hr] at hx
          simp at hx
      | some raw =>
        have hsome : (rowGet fns cells tc).isSome = true := by
          rw [hr]
          rfl
        have hlift : ∀ dX, ((∃ d, withOriginalRows fns tc rest dX = .ok d) ↔
            (∀ c ∈ cells :: rest, c ≠ [] → (rowGet fns c tc).isSome = true)) := by
          intro dX
          rw [ih dX]
          constructor
          · intro hall c hcmem hcne2
            rcases List.mem_cons.mp hcmem with rfl | hmem
            · exact hsome
            · exact hall c hmem hcne2
          · intro hall c hc hcne2
            exact hall c (List.mem_cons_of_mem _ hc) hcne2
        by_cases ht : pyStripStr raw ≠ ""
        · by_cases hn : normalize_term (pyStripStr raw) ≠ ""
          · have hbody : withOriginalRows fns tc (cells :: rest) d0 =
                withOriginalRows fns tc rest
                  (dictInsert d0 (normalize_term (pyStripStr raw)) (pyStripStr raw)) := by
              simp only [withOriginalRows]
              rw [if_neg hemp]
              simp only [hr]
              rw [if_pos ht, if_pos hn]
            rw [hbody]
            exact hlift _
          · have hbody : withOriginalRows fns tc (cells :: rest) d0 =
                withOriginalRows fns tc rest d0 := by
              simp only [withOriginalRows]
              rw [if_neg hemp]
              simp only [hr]
              rw [if_pos ht, if_neg hn]
            rw [hbody]
            exact hlift _
        · have hbody : withOriginalRows fns tc (cells :: rest) d0 =
              withOriginalRows fns tc rest d0 := by
            simp only [withOriginalRows]
            rw [if_neg hemp]
            simp only [hr]
            rw [if_neg ht]
          rw [hbody]
          exact hlift _

theorem fromCsvRows_ok_iff (fns : List String) (tc : String) :
    ∀ (rows : List (List String)) (s0 : Finset String),
      (∃ s, fromCsvRows fns tc rows s0 = .ok s) ↔
        (∀ c ∈ rows, c ≠ [] → (rowGet fns c tc).isSome = true) := by
  intro rows
  induction rows with
  | nil =>
    intro s0
    constructor
    · intro _ c hc
      exact absurd hc (List.not_mem_nil c)
    · intro _
      exact ⟨s0, rfl⟩
  | cons cells rest ih =>
    intro s0
    by_cases hemp : cells.isEmpty = true
    · have hcells : cells = [] := by simpa using hemp
      have hbody : fromCsvRows fns tc (cells :: rest) s0 = fromCsvRows fns tc rest s0 := by
        simp only [fromCsvRows]
        rw [if_pos hemp]
      rw [hbody, ih s0]
      constructor
      · intro hall c hcmem hcne
        rcases List.mem_cons.mp hcmem with rfl | hmem
        · exact absurd hcells hcne
        · exact hall c hmem hcne
      · intro hall c hc hcne
        exact hall c (List.mem_cons_of_mem _ hc) hcne
    · have hcne : cells ≠ [] := by
        intro hh
        rw [hh] at hemp
        exact hemp rfl
      cases hr : rowGet fns cells tc with
      | none =>
        have hbody : fromCsvRows fns tc (cells :: rest) s0 = .attributeError := by
          simp only [fromCsvRows]
          rw [if_neg hemp]
          simp only [hr]
        rw [hbody]
        constructor
        · rintro ⟨s, hs⟩
          cases hs
        · intro hall
          have hx := hall cells (List.mem_cons_self _ _) hcne
          rw [hr] at hx
          simp at hx
      | some raw =>
        have hsome : (rowGet fns cells tc).isSome = true := by
          rw [hr]
          rfl
        have hlift : ∀ sX, ((∃ s, fromCsvRows fns tc rest sX = .ok s) ↔
            (∀ c ∈ cells :: rest, c ≠ [] → (rowGet fns c tc).isSome = true)) := by
          intro sX
          rw [ih sX]
          constructor
          · intro hall c hcmem hcne2
            rcases List.mem_cons.mp hcmem with rfl | hmem
            · exact hsome
            · exact hall c hmem hcne2
          · intro hall c hc hcne2
            exact hall c (List.mem_cons_of_mem _ hc) hcne2
        by_cases ht : pyStripStr raw ≠ ""
        · by_cases hn : normalize_term (pyStripStr raw) ≠ ""
          · have hbody : fromCsvRows fns tc (cells :: rest) s0 =
                fromCsvRows fns tc rest (insert (normalize_term (pyStripStr raw)) s0) := by
              simp only [fromCsvRows]
              rw [if_neg hemp]
              simp only [hr]
              rw [if_pos ht, if_pos hn]
            rw [hbody]
            exact hlift _
          · have hbody : fromCsvRows fns tc (cells :: rest) s0 =
                fromCsvRows fns tc rest s0 := by
              simp only [fromCsvRows]
              rw [if_neg hemp]
              simp only [hr]
              rw [if_pos ht, if_neg hn]
            rw [hbody]
            exact hlift _
        · have hbody : fromCsvRows fns tc (cells :: rest) s0 =
              fromCsvRows fns tc rest s0 := by
            simp only [fromCsvRows]
            rw [if_neg hemp]
            simp only [hr]
            rw [if_neg ht]
          rw [hbody]
          exact hlift _

/-- Claim C8 counterexample: with a valid term column but a data row
that is shorter than the header, csv.DictReader substitutes None for
the missing term cell and stripping it raises an AttributeError, so
extraction raises even though a term column exists; the claimed
equivalence (raises if and only if no term column) is false at this
input. -/
theorem c8_counterexample :
    findTermColumn ["id", "term"] = some "term" ∧
    extract_terms_with_original (some ["id", "term"]) [["5"]] = .attributeError ∧
    extract_terms_from_csv (some ["id", "term"]) [["5"]] = .attributeError := by
  refine ⟨by decide, by decide, by decide⟩

/-- Claim C8 as amended: both extraction functions raise the
no-term-column ValueError, carrying the available column names,
exactly when no header column case-insensitively equals term after
trimming (the first matching column in order being used otherwise);
and when a term column exists, extraction succeeds exactly when every
non-empty data row supplies a cell for that column, a missing cell
raising an AttributeError instead. -/
theorem c8_term_column_errors (fieldnames : Option (List String))
    (rows : List (List String)) :
    ((extract_terms_with_original fieldnames rows = .valueError fieldnames) ↔
      noTermColumn fieldnames) ∧
    ((extract_terms_from_csv fieldnames rows = .valueError fieldnames) ↔
      noTermColumn fieldnames) ∧
    (∀ fns tc, fieldnames = some fns → findTermColumn fns = some tc →
      ((∃ d, extract_terms_with_original fieldnames rows = .ok d) ↔
        ∀ c ∈ rows, c ≠ [] → (rowGet fns c tc).isSome = true)) ∧
    (∀ fns tc, fieldnames = some fns → findTermColumn fns = some tc →
      ((∃ s, extract_terms_from_csv fieldnames rows = .ok s) ↔
        ∀ c ∈ rows, c ≠ [] → (rowGet fns c tc).isSome = true)) := by
  refine ⟨?_, ?_, ?_, ?_⟩
  · cases fieldnames with
    | none =>
      apply iff_of_true
      · rfl
      · intro fns h
        cases h
    | some fns =>
      cases hf : findTermColumn fns with
      | none =>
        apply iff_of_true
        · simp [extract_terms_with_original, hf]
        · intro fns2 heq
          cases heq
          exact (findTermColumn_eq_none_iff fns).mp hf
      | some tc =>
        apply iff_of_false
        · simp only [extract_terms_with_original, hf, Option.getD]
          exact withOriginalRows_ne_valueError fns tc rows [] (some fns)
        · intro hno
          have := (findTermColumn_eq_none_iff fns).mpr (hno fns rfl)
          rw [hf] at this
          cases this
  · cases fieldnames with
    | none =>
      apply iff_of_true
      · rfl
      · intro fns h
        cases h
    | some fns =>
      cases hf : findTermColumn fns with
      | none =>
        apply iff_of_true
        · simp [extract_terms_from_csv, hf]
        · intro fns2 heq
          cases heq
          exact (findTermColumn_eq_none_iff fns).mp hf
      | some tc =>
        apply iff_of_false
        · simp only [extract_terms_from_csv, hf, Option.getD]
          exact fromCsvRows_ne_valueError fns tc rows ∅ (some fns)
        · intro hno
          have := (findTermColumn_eq_none_iff fns).mpr (hno fns rfl)
          rw [hf] at this
          cases this
  · intro fns tc heq htc
    subst heq
    simp only [extract_terms_with_original, htc, Option.getD]
    exact withOriginalRows_ok_iff fns tc rows []
  · intro fns tc heq htc
    subst heq
    simp only [extract_terms_from_csv, htc, Option.getD]
    exact fromCsvRows_ok_iff fns tc rows ∅

/-- Witness for c8_term_column_errors: a missing header raises the
ValueError, and on a well-formed one-column file with one full row the
extraction succeeds. -/
theorem c8_term_column_errors_witness :
    extract_terms_with_original none [] = .valueError none ∧
    (∃ d, extract_terms_with_original (some ["term"]) [["x"]] = .ok d) := by
  constructor
  · exact (c8_term_column_errors none []).1.mpr (fun fns h => by cases h)
  · exact ((c8_term_column_errors (some ["term"]) [["x"]]).2.2.1 ["term"] "term" rfl
      (by decide)).mpr (by decide)

/-- Witness for c4_metrics_identity_and_empty at the concrete
singleton set. -/
theorem c4_metrics_identity_and_empty_witness :
    (calculate_metrics ({"a"} : Finset String) {"a"}).precision = 1 :=
  (c4_metrics_identity_and_empty ({"a"} : Finset String) (by decide)).1
